import Mathlib

/-!
Shallow embedding of the `duck_punch_mcp` repository (dynamic capability-to-adapter
compilation pipeline for MCP servers) and proofs about its behaviour.

Sources embedded:
- `src/duck_punch_mcp/google_api_server.py` : `sanitize_tool_name`, `get_service`,
  `create_tool_wrapper` (parameter remapping, wrapper), `register_tools_for_api`.
- `src/duck_punch_mcp/gcp_server.py` : `get_client`, `is_simple_type`, `create_wrapper`
  (annotation normalization, pager truncation, result normalization).
- `src/duck_punch_mcp/fitbit_server.py` : nested-`kwargs` unwrapping, discovery wrapper.
- `src/duck_punch_mcp/secops_server.py` : `register_tools.create_wrapper.wrapper`.
- `src/duck_punch_mcp/soar_server.py` : `create_wrapper` (catch-all error string).

Python strings are `List Char` / `String`, Python dicts are association lists with
unique keys, machine 32-bit words are `Nat` reduced mod `2^32`, and Python
exceptions are `Except String`.
-/

namespace DuckPunch

/-! ## JSON-ish values (Python objects crossing the adapter boundary) -/

inductive Value where
  | vnull : Value
  | vbool (b : Bool) : Value
  | vint (n : Int) : Value
  | vstr (s : String) : Value
  | vlist (xs : List Value) : Value
  | vdict (entries : List (String × Value)) : Value

/-! ## Association-list operations modelling Python `dict`

Python dicts have unique keys; `alookup` finds the binding of a key,
`aerase` models `dict.pop` (removal), `aset` models `d[k] = v`
(replace in place if present, else append, matching insertion-order
semantics), `aupdate` models `d.update(other)`. -/

def alookup (k : String) : List (String × Value) → Option Value
  | [] => none
  | (k', v) :: rest => if k' = k then some v else alookup k rest

def aerase (k : String) : List (String × Value) → List (String × Value)
  | [] => []
  | (k', v) :: rest => if k' = k then aerase k rest else (k', v) :: aerase k rest

def aset (k : String) (v : Value) : List (String × Value) → List (String × Value)
  | [] => [(k, v)]
  | (k', v') :: rest => if k' = k then (k, v) :: rest else (k', v') :: aset k v rest

def aupdate (m inner : List (String × Value)) : List (String × Value) :=
  inner.foldl (fun acc kv => aset kv.1 kv.2 acc) m

def slookup (k : String) : List (String × String) → Option String
  | [] => none
  | (k', v) :: rest => if k' = k then some v else slookup k rest

/-! ## MD5 (as used by `hashlib.md5(name.encode('utf-8')).hexdigest()[:8]`)

32-bit words are `Nat` with arithmetic reduced mod `2^32`. -/

def m32 : Nat := 4294967296

def mask32 : Nat := 4294967295

def rotl32 (x n : Nat) : Nat := (((x <<< n) % m32) ||| (x >>> (32 - n)))

/-- Per-round additive constants of MD5 (`floor(abs(sin(i+1)) * 2^32)`). -/
def md5K : List Nat :=
  [0xd76aa478, 0xe8c7b756, 0x242070db, 0xc1bdceee,
   0xf57c0faf, 0x4787c62a, 0xa8304613, 0xfd469501,
   0x698098d8, 0x8b44f7af, 0xffff5bb1, 0x895cd7be,
   0x6b901122, 0xfd987193, 0xa679438e, 0x49b40821,
   0xf61e2562, 0xc040b340, 0x265e5a51, 0xe9b6c7aa,
   0xd62f105d, 0x02441453, 0xd8a1e681, 0xe7d3fbc8,
   0x21e1cde6, 0xc33707d6, 0xf4d50d87, 0x455a14ed,
   0xa9e3e905, 0xfcefa3f8, 0x676f02d9, 0x8d2a4c8a,
   0xfffa3942, 0x8771f681, 0x6d9d6122, 0xfde5380c,
   0xa4beea44, 0x4bdecfa9, 0xf6bb4b60, 0xbebfbc70,
   0x289b7ec6, 0xeaa127fa, 0xd4ef3085, 0x04881d05,
   0xd9d4d039, 0xe6db99e5, 0x1fa27cf8, 0xc4ac5665,
   0xf4292244, 0x432aff97, 0xab9423a7, 0xfc93a039,
   0x655b59c3, 0x8f0ccc92, 0xffeff47d, 0x85845dd1,
   0x6fa87e4f, 0xfe2ce6e0, 0xa3014314, 0x4e0811a1,
   0xf7537e82, 0xbd3af235, 0x2ad7d2bb, 0xeb86d391]

/-- Per-round left-rotation amounts of MD5. -/
def md5S : List Nat :=
  [7, 12, 17, 22, 7, 12, 17, 22, 7, 12, 17, 22, 7, 12, 17, 22,
   5, 9, 14, 20, 5, 9, 14, 20, 5, 9, 14, 20, 5, 9, 14, 20,
   4, 11, 16, 23, 4, 11, 16, 23, 4, 11, 16, 23, 4, 11, 16, 23,
   6, 10, 15, 21, 6, 10, 15, 21, 6, 10, 15, 21, 6, 10, 15, 21]

structure MD5St where
  a : Nat
  b : Nat
  c : Nat
  d : Nat
deriving Repr

def md5F (i b c d : Nat) : Nat :=
  if i < 16 then (b &&& c) ||| ((mask32 ^^^ b) &&& d)
  else if i < 32 then (d &&& b) ||| ((mask32 ^^^ d) &&& c)
  else if i < 48 then b ^^^ c ^^^ d
  else c ^^^ (b ||| (mask32 ^^^ d))

def md5G (i : Nat) : Nat :=
  if i < 16 then i
  else if i < 32 then (5 * i + 1) % 16
  else if i < 48 then (3 * i + 5) % 16
  else (7 * i) % 16

def md5Round (M : List Nat) (st : MD5St) (i : Nat) : MD5St :=
  let f := (md5F i st.b st.c st.d + st.a + md5K.getD i 0 + M.getD (md5G i) 0) % m32
  ⟨st.d, (st.b + rotl32 f (md5S.getD i 0)) % m32, st.b, st.c⟩

def md5Chunk (st : MD5St) (M : List Nat) : MD5St :=
  let r := (List.range 64).foldl (md5Round M) st
  ⟨(st.a + r.a) % m32, (st.b + r.b) % m32, (st.c + r.c) % m32, (st.d + r.d) % m32⟩

/-- Little-endian byte decomposition of a natural number into `n` bytes. -/
def leBytes : Nat → Nat → List Nat
  | 0, _ => []
  | n + 1, x => (x % 256) :: leBytes n (x / 256)

/-- Group the bytes of a 64-byte chunk into sixteen little-endian 32-bit words. -/
def leWords : List Nat → List Nat
  | b0 :: b1 :: b2 :: b3 :: rest =>
      (b0 + 256 * b1 + 65536 * b2 + 16777216 * b3) :: leWords rest
  | _ => []

/-- MD5 padding: `0x80`, zeros to 56 mod 64, then the 64-bit little-endian bit length. -/
def md5Pad (msg : List Nat) : List Nat :=
  msg ++ 0x80 :: List.replicate ((55 + 64 - msg.length % 64) % 64) 0
      ++ leBytes 8 ((msg.length * 8) % 2 ^ 64)

def chunks64 : List Nat → List (List Nat)
  | [] => []
  | x :: rest => ((x :: rest).take 64) :: chunks64 ((x :: rest).drop 64)
termination_by l => l.length
decreasing_by simp; omega

def md5Digest (msg : List Nat) : MD5St :=
  (chunks64 (md5Pad msg)).foldl (fun st chunk => md5Chunk st (leWords chunk))
    ⟨0x67452301, 0xefcdab89, 0x98badcfe, 0x10325476⟩

/-- UTF-8 encoding of a single character, `str.encode('utf-8')` per code point. -/
def utf8Bytes (c : Char) : List Nat :=
  let n := c.toNat
  if n < 0x80 then [n]
  else if n < 0x800 then [0xC0 + n / 64, 0x80 + n % 64]
  else if n < 0x10000 then [0xE0 + n / 4096, 0x80 + n / 64 % 64, 0x80 + n % 64]
  else [0xF0 + n / 262144, 0x80 + n / 4096 % 64, 0x80 + n / 64 % 64, 0x80 + n % 64]

def utf8Encode (s : String) : List Nat := s.data.flatMap utf8Bytes

def hexDigit (n : Nat) : Char :=
  if n < 10 then Char.ofNat (48 + n) else Char.ofNat (87 + n)

/-- Two lowercase hex characters of one byte, as `hexdigest` renders it. -/
def byteHex (b : Nat) : List Char := [hexDigit (b / 16 % 16), hexDigit (b % 16)]

/-- `hashlib.md5(name.encode('utf-8')).hexdigest()[:8]`: the first eight hex
characters of the digest, i.e. the four bytes of the `A` register, little-endian. -/
def md5hex8 (s : String) : String :=
  let a := (md5Digest (utf8Encode s)).a
  String.mk (byteHex (a % 256) ++ byteHex (a / 256 % 256)
      ++ byteHex (a / 65536 % 256) ++ byteHex (a / 16777216 % 256))

/-! ## Identifier sanitizer (`google_api_server.sanitize_tool_name`)

The Python function indexes `sanitized[0]`, so on the empty string it raises
`IndexError`; the embedding returns `none` exactly there. -/

/-- The approved character class of `re.sub(r'[^a-zA-Z0-9_.:-]', '_', name)`. -/
def allowedChar (c : Char) : Bool :=
  c.isAlpha || c.isDigit || c == '_' || c == '.' || c == ':' || c == '-'

def sanitizeChars (s : List Char) : List Char :=
  s.map (fun c => if allowedChar c then c else '_')

/-- `google_api_server.sanitize_tool_name`. `s.data.take 27` is `sanitized[:27]`
and `s.data.drop (len - 27)` is `sanitized[-27:]` (the slice only runs when
`len > 64 > 27`, where the Python negative slice is exactly the last 27 chars). -/
def sanitize_tool_name (name : String) : Option String :=
  let sanitized := sanitizeChars name.data
  match sanitized with
  | [] => none
  | c0 :: _ =>
    let s2 := if c0.isAlpha || c0 == '_' then sanitized else 'A' :: sanitized
    if s2.length ≤ 64 then some (String.mk s2)
    else
      some (String.mk (s2.take 27 ++ '_' :: ((md5hex8 name).data
          ++ '_' :: s2.drop (s2.length - 27))))

/-! ## Schema normalization

`PyType` models the Python type objects a parameter annotation can hold:
the simple builtins, `type(None)`, `typing.Union`/`Optional` aliases,
`typing.Any`, and opaque provider-specific classes (protos, request types). -/

inductive PyType where
  | pstr : PyType
  | pint : PyType
  | pfloat : PyType
  | pbool : PyType
  | plist : PyType
  | pdict : PyType
  | pnone : PyType
  | pany : PyType
  | punion (args : List PyType) : PyType
  | pcustom (tag : String) : PyType

mutual

/-- `gcp_server.is_simple_type`: the builtins and `type(None)` are simple, a
`Union` is simple when all its arguments are, everything else (including
`typing.Any`, whose `get_origin` is not `Union`) is not. -/
def is_simple_type : PyType → Bool
  | .pstr => true
  | .pint => true
  | .pfloat => true
  | .pbool => true
  | .plist => true
  | .pdict => true
  | .pnone => true
  | .punion args => allSimple args
  | _ => false

def allSimple : List PyType → Bool
  | [] => true
  | t :: rest => is_simple_type t && allSimple rest

end

/-- `gcp_server.create_wrapper` annotation normalization: a missing annotation
(`inspect.Parameter.empty`, here `none`) is first replaced by `typing.Any`;
then any annotation failing `is_simple_type` is forced to `dict`. -/
def gcpNormalizeAnn (ann : Option PyType) : PyType :=
  let annotation := match ann with
    | none => PyType.pany
    | some t => t
  if is_simple_type annotation then annotation else .pdict

/-- `google_api_server.create_tool_wrapper`'s `type_map.get(p_type_str, str)`:
discovery-document type tags map to Python builtins, defaulting to `str`. -/
def googleTypeMap (tag : String) : PyType :=
  if tag = "string" then .pstr
  else if tag = "integer" then .pint
  else if tag = "boolean" then .pbool
  else if tag = "number" then .pfloat
  else if tag = "array" then .plist
  else if tag = "object" then .pdict
  else .pstr

/-- `param_info.get('type', 'string')` followed by the `type_map` lookup:
a missing type tag defaults to `"string"`. -/
def googleNormalizeParam (tag : Option String) : PyType :=
  googleTypeMap (tag.getD "string")

/-- Membership in the spec's portable type vocabulary
`{string, integer, float, boolean, array, object, any}`. -/
def isPortableSeven : PyType → Bool
  | .pstr => true
  | .pint => true
  | .pfloat => true
  | .pbool => true
  | .plist => true
  | .pdict => true
  | .pany => true
  | _ => false

/-! ## Parameter remapping (`google_api_server.create_tool_wrapper.wrapper`)

The wrapper builds `api_kwargs` from the caller's keyword arguments: `'body'`
passes through, keys found in `param_mapping` are translated back to the
original dotted parameter name, and anything else falls through unchanged. -/

def remapKey (mapping : List (String × String)) (k : String) : String :=
  if k = "body" then "body"
  else match slookup k mapping with
    | some orig => orig
    | none => k

def remapKwargs (mapping : List (String × String))
    (kwargs : List (String × Value)) : List (String × Value) :=
  kwargs.foldl (fun acc kv => aset (remapKey mapping kv.1) kv.2 acc) []

/-! ## Nested-`kwargs` unwrapping (`fitbit_server`)

Every fitbit wrapper starts with: if `'kwargs' in kwargs`, pop it and, when
the popped value is a dict, merge it into the argument set with
`kwargs.update(inner_kwargs)`. The test is performed once, never recursively. -/

def unwrapKwargs (kwargs : List (String × Value)) : List (String × Value) :=
  match alookup "kwargs" kwargs with
  | none => kwargs
  | some v =>
    let rest := aerase "kwargs" kwargs
    match v with
    | .vdict inner => aupdate rest inner
    | _ => rest

/-! ## Result normalization (`gcp_server.create_wrapper.wrapper`)

A raw result is classified in order: pager (has `pages`), proto message (class
has `to_json`), basic builtin, generic `str` fallback. For a pager the items
are materialized through `enumerate`, breaking as soon as the index reaches 20. -/

inductive GcpResult (α : Type) where
  | pager (items : List α) : GcpResult α
  | proto (canonical : String) : GcpResult α
  | basic (v : Value) : GcpResult α
  | other (shown : String) : GcpResult α

/-- The `for i, item in enumerate(result): if i >= 20: break` loop body:
serialized items are accumulated until the enumeration index reaches 20. -/
def collectPagerItems (ser : α → String) : Nat → List α → List String
  | _, [] => []
  | i, x :: rest => if 20 ≤ i then [] else ser x :: collectPagerItems ser (i + 1) rest

/-- Canonical text for each result class, mirroring the wrapper's if-chain:
pager results become a JSON array of at most 20 serialized items. -/
def gcpNormalizeResult (ser : α → String) (jsonDumps : Value → String)
    (strConv : Value → String) : GcpResult α → String
  | .pager items => "[" ++ String.intercalate ", " (collectPagerItems ser 0 items) ++ "]"
  | .proto canonical => canonical
  | .basic v =>
    match v with
    | .vdict entries => jsonDumps (.vdict entries)
    | .vlist xs => jsonDumps (.vlist xs)
    | v' => strConv v'
  | .other shown => shown

/-! ## Adapter closures

Each adapter body is a pipeline of fallible steps (`Except String` models a
Python exception carrying its message).  The servers differ in whether the
body is guarded by `try/except`:

* `google_api_server.create_tool_wrapper.wrapper` — guarded; the failure
  string carries the sanitized tool name.
* `gcp_server.create_wrapper.wrapper` and `soar_server.create_wrapper.wrapper`
  — guarded; the failure string carries the provider method name.
* `secops_server.register_tools.create_wrapper.wrapper` and the discovery
  wrappers of `fitbit_server.register_tools` — not guarded; any exception
  from `get_client` or the provider call propagates to the caller. -/

def googleWrapperBody (factory : Except String Unit)
    (callOp : List (String × Value) → Except String Value)
    (serialize : Value → Except String String)
    (mapping : List (String × String))
    (kwargs : List (String × Value)) : Except String String := do
  let _ ← factory
  let response ← callOp (remapKwargs mapping kwargs)
  serialize response

/-- `google_api_server.create_tool_wrapper.wrapper`: the whole body sits in a
`try`, and the `except` arm returns `f"Error executing {tool_name}: {e}"`. -/
def googleWrapper (toolName : String) (factory : Except String Unit)
    (callOp : List (String × Value) → Except String Value)
    (serialize : Value → Except String String)
    (mapping : List (String × String))
    (kwargs : List (String × Value)) : String :=
  match googleWrapperBody factory callOp serialize mapping kwargs with
  | .ok s => s
  | .error e => "Error executing " ++ toolName ++ ": " ++ e

def gcpWrapperBody (clientFactory : Except String Unit)
    (callOp : List (String × Value) → Except String (GcpResult α))
    (ser : α → String) (jsonDumps : Value → String) (strConv : Value → String)
    (kwargs : List (String × Value)) : Except String String := do
  let _ ← clientFactory
  let result ← callOp kwargs
  pure (gcpNormalizeResult ser jsonDumps strConv result)

/-- `gcp_server.create_wrapper.wrapper`: guarded body; the `except` arm returns
`f"Error executing {method_name}: {str(e)}"` (the provider method name, not
the prefixed tool name). -/
def gcpWrapper (methodName : String) (clientFactory : Except String Unit)
    (callOp : List (String × Value) → Except String (GcpResult α))
    (ser : α → String) (jsonDumps : Value → String) (strConv : Value → String)
    (kwargs : List (String × Value)) : String :=
  match gcpWrapperBody clientFactory callOp ser jsonDumps strConv kwargs with
  | .ok s => s
  | .error e => "Error executing " ++ methodName ++ ": " ++ e

/-- `secops_server.register_tools.create_wrapper.wrapper`: resolves the client
with `get_client()` (which raises when `PROJECT_ID`/`CUSTOMER_ID` are unset)
and calls `f(client, *args, **kwargs)` — with no `try/except`, so the result
type is still `Except`: errors escape to the caller. -/
def secopsWrapper (getClient : Except String Unit)
    (f : Unit → List (String × Value) → Except String Value)
    (kwargs : List (String × Value)) : Except String Value := do
  let client ← getClient
  f client kwargs

/-! ## Registry (`google_api_server.register_tools_for_api.process_resource`)

`mcp.add_tool` belongs to the external FastMCP library and is not under
`src/`; `addTool` below is modelled from the spec. The repository's own code
around it (sanitize inside `create_tool_wrapper`, the `try/except` that logs
`"Failed to register tool ..."` and continues) is embedded from the source. -/

structure RegistryState where
  registry : List (String × Nat)
  registeredTools : List String
  logs : List String

/-- Modelled from the spec: FastMCP's `add_tool` (external to `src/`), per
§6: `register(AdapterRecord, callable)` "fails if `catalogKey` already
exists"; the already-present entry is not overwritten. -/
def addTool (reg : List (String × Nat)) (key : String) (tool : Nat) :
    Except String (List (String × Nat)) :=
  if reg.any (fun kv => kv.1 = key) then .error ("Tool already exists: " ++ key)
  else .ok (reg ++ [(key, tool)])

/-- One iteration of `process_resource`'s method loop: build the wrapper
(whose name is the sanitized tool name), `mcp.add_tool` it, and append to
`_registered_tools`; any exception is caught, logged, and the loop continues,
so registration is total (it returns a state, never raises). -/
def registerTool (st : RegistryState) (toolName : String) (tool : Nat) :
    RegistryState :=
  match sanitize_tool_name toolName with
  | none =>
    { st with logs := st.logs ++ ["Failed to register tool " ++ toolName] }
  | some key =>
    match addTool st.registry key tool with
    | .ok reg =>
      { st with registry := reg, registeredTools := st.registeredTools ++ [toolName] }
    | .error e =>
      { st with logs := st.logs ++ ["Failed to register tool " ++ toolName ++ ": " ++ e] }

def countKey (key : String) (reg : List (String × Nat)) : Nat :=
  (reg.filter (fun kv => kv.1 = key)).length

/-! ## Client cache (`google_api_server.get_service` / `gcp_server.get_client`)

Both caches are a bare module-level dict with an unsynchronized
check-then-act: `if key in _services: return _services[key]` followed by a
blocking construction and `_services[key] = service`. For one fixed key the
cache is an `Option`; handles are identified by a construction counter, so a
fresh construction yields a fresh handle identity. -/

structure CacheState where
  cached : Option Nat
  constructions : Nat
deriving DecidableEq, Repr

/-- A single sequential `get_service` call for the fixed key: return the
memoized handle, or construct, memoize and return a fresh one. -/
def get_service (st : CacheState) : Nat × CacheState :=
  match st.cached with
  | some h => (h, st)
  | none => (st.constructions, ⟨some st.constructions, st.constructions + 1⟩)

/-- `n` back-to-back `get_service` calls, collecting the returned handles. -/
def seqCalls : Nat → CacheState → List Nat × CacheState
  | 0, st => ([], st)
  | n + 1, st =>
    let (h, st') := get_service st
    let (hs, st'') := seqCalls n st'
    (h :: hs, st'')

/-- Program counter of one thread running `get_service`: before the cache
check, between the check and the construction, or returned with a handle. -/
inductive ThreadPC where
  | start : ThreadPC
  | building : ThreadPC
  | finished (handle : Nat) : ThreadPC
deriving DecidableEq, Repr

/-- One interleaved step of a thread. The cache check and the construction
are separate steps, as in the source, where `build(...)` performs blocking
network I/O between the two. -/
def threadStep : ThreadPC → CacheState → ThreadPC × CacheState
  | .start, st =>
    (match st.cached with
     | some h => .finished h
     | none => .building, st)
  | .building, st => (.finished st.constructions, ⟨some st.constructions, st.constructions + 1⟩)
  | .finished h, st => (.finished h, st)

structure TwoThreads where
  t1 : ThreadPC
  t2 : ThreadPC
  st : CacheState
deriving DecidableEq, Repr

def stepSys (s : TwoThreads) (first : Bool) : TwoThreads :=
  if first then
    let (pc, st') := threadStep s.t1 s.st
    { s with t1 := pc, st := st' }
  else
    let (pc, st') := threadStep s.t2 s.st
    { s with t2 := pc, st := st' }

def runSched (sched : List Bool) (s : TwoThreads) : TwoThreads :=
  sched.foldl stepSys s

def initTwoThreads : TwoThreads := ⟨.start, .start, ⟨none, 0⟩⟩

/-! ## Derived notions used by theorem statements -/

/-- The first character of the key is an ASCII letter or an underscore
(false on the empty list: an empty key has no valid first character). -/
def startsOk : List Char → Bool
  | [] => false
  | c :: _ => c.isAlpha || c == '_'

/-- The `sanitized` local of `sanitize_tool_name` right after `re.sub`. -/
def sanitizedForm (name : String) : List Char := sanitizeChars name.data

/-- The `sanitized` local after the conditional `'A'` prepend, i.e. the
character-sanitized form whose length is compared against 64. -/
def prependedForm (name : String) : List Char :=
  match sanitizedForm name with
  | [] => []
  | c0 :: rest => if c0.isAlpha || c0 == '_' then c0 :: rest else 'A' :: c0 :: rest

/-- Lowercase hexadecimal characters, the alphabet of `hexdigest`. -/
def isHexChar (c : Char) : Bool := c.isDigit || ('a' ≤ c && c ≤ 'f')

/-- Lookup in the registry association list (first binding of a key). -/
def nlookup (k : String) : List (String × Nat) → Option Nat
  | [] => none
  | (k', v) :: rest => if k' = k then some v else nlookup k rest

/-! # Theorems -/

/-! ### Sanitizer helper lemmas -/

theorem allowed_after_sub (c : Char) :
    allowedChar (if allowedChar c then c else '_') = true := by
  by_cases h : allowedChar c = true
  · rw [if_pos h]; exact h
  · rw [if_neg h]; decide

theorem mem_sanitizeChars_allowed {l : List Char} {c : Char}
    (hc : c ∈ sanitizeChars l) : allowedChar c = true := by
  simp only [sanitizeChars, List.mem_map] at hc
  obtain ⟨a, -, rfl⟩ := hc
  exact allowed_after_sub a

theorem sanitizeChars_of_all_allowed {l : List Char}
    (h : ∀ c ∈ l, allowedChar c = true) : sanitizeChars l = l := by
  induction l with
  | nil => rfl
  | cons c rest ih =>
    simp only [sanitizeChars, List.map_cons]
    rw [if_pos (h c (List.mem_cons_self c rest))]
    have := ih (fun d hd => h d (List.mem_cons_of_mem c hd))
    simpa [sanitizeChars] using this

theorem hexDigit_lt16 :
    ∀ m, m < 16 → (isHexChar (hexDigit m) = true ∧ allowedChar (hexDigit m) = true) := by
  decide

theorem mem_byteHex {b : Nat} {c : Char} (hc : c ∈ byteHex b) :
    isHexChar c = true ∧ allowedChar c = true := by
  rcases hc with _ | ⟨_, hc⟩
  · exact hexDigit_lt16 _ (Nat.mod_lt _ (by norm_num))
  · rcases hc with _ | ⟨_, hc⟩
    · exact hexDigit_lt16 _ (Nat.mod_lt _ (by norm_num))
    · cases hc

theorem md5hex8_data (s : String) :
    (md5hex8 s).data =
      byteHex ((md5Digest (utf8Encode s)).a % 256)
        ++ byteHex ((md5Digest (utf8Encode s)).a / 256 % 256)
        ++ byteHex ((md5Digest (utf8Encode s)).a / 65536 % 256)
        ++ byteHex ((md5Digest (utf8Encode s)).a / 16777216 % 256) := rfl

theorem md5hex8_data_length (s : String) : (md5hex8 s).data.length = 8 := by
  rw [md5hex8_data]
  simp [byteHex]

theorem md5hex8_length (s : String) : (md5hex8 s).length = 8 :=
  md5hex8_data_length s

theorem md5hex8_chars {s : String} {c : Char} (hc : c ∈ (md5hex8 s).data) :
    isHexChar c = true ∧ allowedChar c = true := by
  rw [md5hex8_data] at hc
  simp only [List.mem_append] at hc
  rcases hc with ((h | h) | h) | h <;> exact mem_byteHex h

theorem sanitize_eq_some (name : String) (c0 : Char) (rest : List Char)
    (h : sanitizeChars name.data = c0 :: rest) :
    sanitize_tool_name name =
      (if (prependedForm name).length ≤ 64 then some (String.mk (prependedForm name))
       else some (String.mk ((prependedForm name).take 27 ++ '_' :: ((md5hex8 name).data
           ++ '_' :: (prependedForm name).drop ((prependedForm name).length - 27))))) := by
  have hp : prependedForm name =
      if (c0.isAlpha || c0 == '_') = true then c0 :: rest else 'A' :: c0 :: rest := by
    simp only [prependedForm, sanitizedForm, h]
  unfold sanitize_tool_name
  rw [h, hp]

theorem prependedForm_all_allowed {name : String} {c : Char}
    (hc : c ∈ prependedForm name) : allowedChar c = true := by
  cases h : sanitizeChars name.data with
  | nil =>
    rw [show prependedForm name = [] by simp only [prependedForm, sanitizedForm, h]] at hc
    cases hc
  | cons c0 rest =>
    rw [show prependedForm name =
        if (c0.isAlpha || c0 == '_') = true then c0 :: rest else 'A' :: c0 :: rest by
      simp only [prependedForm, sanitizedForm, h]] at hc
    by_cases hb : (c0.isAlpha || c0 == '_') = true
    · rw [if_pos hb] at hc
      exact mem_sanitizeChars_allowed (h ▸ hc)
    · rw [if_neg hb] at hc
      rcases hc with _ | ⟨_, hc⟩
      · decide
      · exact mem_sanitizeChars_allowed (h ▸ hc)

theorem prependedForm_startsOk {name : String} {c0 : Char} {rest : List Char}
    (h : sanitizeChars name.data = c0 :: rest) :
    startsOk (prependedForm name) = true := by
  have hp : prependedForm name =
      if (c0.isAlpha || c0 == '_') = true then c0 :: rest else 'A' :: c0 :: rest := by
    simp only [prependedForm, sanitizedForm, h]
  rw [hp]
  by_cases hb : (c0.isAlpha || c0 == '_') = true
  · rw [if_pos hb]; exact hb
  · rw [if_neg hb]; rfl

theorem long_key_valid {name : String} (h64 : 64 < (prependedForm name).length)
    (hhead : startsOk (prependedForm name) = true) :
    ((prependedForm name).take 27 ++ '_' :: ((md5hex8 name).data
        ++ '_' :: (prependedForm name).drop ((prependedForm name).length - 27))).length = 64 ∧
    (∀ c ∈ (prependedForm name).take 27 ++ '_' :: ((md5hex8 name).data
        ++ '_' :: (prependedForm name).drop ((prependedForm name).length - 27)),
      allowedChar c = true) ∧
    startsOk ((prependedForm name).take 27 ++ '_' :: ((md5hex8 name).data
        ++ '_' :: (prependedForm name).drop ((prependedForm name).length - 27))) = true := by
  refine ⟨?_, ?_, ?_⟩
  · simp only [List.length_append, List.length_cons, List.length_take, List.length_drop,
      md5hex8_data_length]
    omega
  · intro c hc
    simp only [List.mem_append, List.mem_cons] at hc
    rcases hc with h1 | h1 | h1 | h1 | h1
    · exact prependedForm_all_allowed (List.take_subset _ _ h1)
    · subst h1; decide
    · exact (md5hex8_chars h1).2
    · subst h1; decide
    · exact prependedForm_all_allowed (List.drop_subset _ _ h1)
  · cases hp : prependedForm name with
    | nil => rw [hp] at h64; simp at h64
    | cons d0 tl =>
      rw [hp] at hhead
      simpa [startsOk, List.take_cons] using hhead

theorem sanitize_some_valid {name out : String}
    (h : sanitize_tool_name name = some out) :
    out.length ≤ 64 ∧ out.data.all allowedChar = true ∧ startsOk out.data = true := by
  cases hs : sanitizeChars name.data with
  | nil =>
    unfold sanitize_tool_name at h
    rw [hs] at h
    cases h
  | cons c0 rest =>
    rw [sanitize_eq_some name c0 rest hs] at h
    by_cases h64 : (prependedForm name).length ≤ 64
    · rw [if_pos h64] at h
      obtain rfl : String.mk (prependedForm name) = out := Option.some.inj h
      refine ⟨h64, ?_, prependedForm_startsOk hs⟩
      exact List.all_eq_true.mpr (fun c hc => prependedForm_all_allowed hc)
    · rw [if_neg h64] at h
      obtain rfl := Option.some.inj h
      obtain ⟨hl, hall, hhd⟩ := long_key_valid (by omega) (prependedForm_startsOk hs)
      exact ⟨le_of_eq hl, List.all_eq_true.mpr hall, hhd⟩

theorem sanitize_eq_none_iff (name : String) :
    sanitize_tool_name name = none ↔ name.data = [] := by
  constructor
  · intro h
    cases hs : sanitizeChars name.data with
    | nil => simpa [sanitizeChars] using hs
    | cons c0 rest =>
      rw [sanitize_eq_some name c0 rest hs] at h
      by_cases h64 : (prependedForm name).length ≤ 64
      · rw [if_pos h64] at h; cases h
      · rw [if_neg h64] at h; cases h
  · intro h
    unfold sanitize_tool_name
    rw [show sanitizeChars name.data = [] by simp [sanitizeChars, h]]

/-! ### Claim C2 -/

/-- Claim C2, counterexample: the claim quantifies over every input string, but
on the empty string `sanitize_tool_name` evaluates `sanitized[0]` and raises
`IndexError` (embedded as `none`): no catalog key is returned at all, so no
returned key can have the claimed properties there. -/
theorem sanitize_empty_raises : sanitize_tool_name "" = none := rfl

/-- Claim C2, amended to every NON-EMPTY input string: the sanitizer returns a
catalog key of length at most 64 whose characters all lie in the approved set
`[a-zA-Z0-9_.:-]` and whose first character is an ASCII letter or underscore.
(On the empty string the code raises `IndexError` instead of returning.) -/
theorem sanitize_nonempty_valid (name : String) (h : name ≠ "") :
    ∃ out, sanitize_tool_name name = some out ∧ out.length ≤ 64 ∧
      out.data.all allowedChar = true ∧ startsOk out.data = true := by
  have hd : name.data ≠ [] := fun hnil => h (String.ext hnil)
  cases hres : sanitize_tool_name name with
  | none => exact absurd ((sanitize_eq_none_iff name).mp hres) hd
  | some out =>
    obtain ⟨h1, h2, h3⟩ := sanitize_some_valid hres
    exact ⟨out, rfl, h1, h2, h3⟩

/-- Witness for C2's amended theorem at the concrete input `"tool@name"`. -/
theorem sanitize_nonempty_valid_witness :
    ("tool@name" : String) ≠ "" ∧
    (∃ out, sanitize_tool_name "tool@name" = some out ∧ out.length ≤ 64 ∧
      out.data.all allowedChar = true ∧ startsOk out.data = true) :=
  ⟨by decide, sanitize_nonempty_valid "tool@name" (by decide)⟩

/-! ### Claim C3 -/

/-- Claim C3, confirmed: whenever the character-sanitized form (after the
conditional `'A'` prepend, which is what the code compares against 64) exceeds
the maximum length, the output is exactly
`sanitized[:27] ++ "_" ++ md5(original)[:8] ++ "_" ++ sanitized[-27:]`;
the hash is a fixed-width 8-character lowercase-hex digest of the original,
pre-sanitization string, and the total length is at most (exactly) 64.
Determinism is immediate: `sanitize_tool_name` and `md5hex8` are functions. -/
theorem sanitize_long_hash (name : String)
    (h : 64 < (prependedForm name).length) :
    sanitize_tool_name name =
      some (String.mk ((prependedForm name).take 27 ++ '_' :: ((md5hex8 name).data
        ++ '_' :: (prependedForm name).drop ((prependedForm name).length - 27)))) ∧
    (md5hex8 name).length = 8 ∧
    (md5hex8 name).data.all isHexChar = true ∧
    ((prependedForm name).take 27 ++ '_' :: ((md5hex8 name).data
        ++ '_' :: (prependedForm name).drop ((prependedForm name).length - 27))).length ≤ 64 := by
  cases hs : sanitizeChars name.data with
  | nil =>
    exfalso
    rw [show prependedForm name = [] by simp only [prependedForm, sanitizedForm, hs]] at h
    simp at h
  | cons c0 rest =>
    refine ⟨?_, md5hex8_length name, ?_, ?_⟩
    · rw [sanitize_eq_some name c0 rest hs, if_neg (by omega)]
    · exact List.all_eq_true.mpr (fun c hc => (md5hex8_chars hc).1)
    · have := (long_key_valid h (prependedForm_startsOk hs)).1
      omega

/-- Witness for C3 at a concrete 70-character input. -/
theorem sanitize_long_hash_witness :
    64 < (prependedForm (String.mk (List.replicate 70 'a'))).length ∧
    (sanitize_tool_name (String.mk (List.replicate 70 'a')) =
      some (String.mk ((prependedForm (String.mk (List.replicate 70 'a'))).take 27
        ++ '_' :: ((md5hex8 (String.mk (List.replicate 70 'a'))).data
        ++ '_' :: (prependedForm (String.mk (List.replicate 70 'a'))).drop
            ((prependedForm (String.mk (List.replicate 70 'a'))).length - 27)))) ∧
    (md5hex8 (String.mk (List.replicate 70 'a'))).length = 8 ∧
    (md5hex8 (String.mk (List.replicate 70 'a'))).data.all isHexChar = true ∧
    ((prependedForm (String.mk (List.replicate 70 'a'))).take 27
        ++ '_' :: ((md5hex8 (String.mk (List.replicate 70 'a'))).data
        ++ '_' :: (prependedForm (String.mk (List.replicate 70 'a'))).drop
            ((prependedForm (String.mk (List.replicate 70 'a'))).length - 27))).length ≤ 64) :=
  ⟨by decide, sanitize_long_hash (String.mk (List.replicate 70 'a')) (by decide)⟩

/-! ### Claim C9 -/

/-- Claim C9, confirmed: the sanitizer is the identity on every non-empty,
≤64-character string that starts with a letter or underscore and uses only
approved characters; and it is idempotent on every input it returns a key for
(sanitizing a sanitizer output returns it unchanged). -/
theorem sanitize_identity_and_idempotent :
    (∀ s : String, s.data ≠ [] → s.length ≤ 64 → startsOk s.data = true →
       s.data.all allowedChar = true → sanitize_tool_name s = some s) ∧
    (∀ s out : String, sanitize_tool_name s = some out →
       sanitize_tool_name out = some out) := by
  have hid : ∀ s : String, s.data ≠ [] → s.length ≤ 64 → startsOk s.data = true →
      s.data.all allowedChar = true → sanitize_tool_name s = some s := by
    intro s hne hlen hhd hall
    have hchars : sanitizeChars s.data = s.data :=
      sanitizeChars_of_all_allowed (List.all_eq_true.mp hall)
    cases hd : s.data with
    | nil => exact absurd hd hne
    | cons c0 rest =>
      have hs : sanitizeChars s.data = c0 :: rest := by rw [hchars, hd]
      have hcond : (c0.isAlpha || c0 == '_') = true := by
        rw [hd] at hhd; exact hhd
      have hp : prependedForm s = c0 :: rest := by
        simp only [prependedForm, sanitizedForm, hs]
        rw [if_pos hcond]
      rw [sanitize_eq_some s c0 rest hs, hp]
      have hlen' : (c0 :: rest).length ≤ 64 := by
        have hl : s.data.length ≤ 64 := hlen
        rw [hd] at hl; exact hl
      rw [if_pos hlen', ← hd]
  refine ⟨hid, ?_⟩
  intro s out h
  obtain ⟨h1, h2, h3⟩ := sanitize_some_valid h
  have hne : out.data ≠ [] := by
    intro hnil; rw [hnil] at h3; cases h3
  exact hid out hne h1 h3 h2

/-- Witness for C9: identity at `"abc"`, idempotence at the output of `"9!"`. -/
theorem sanitize_identity_and_idempotent_witness :
    (("abc" : String).data ≠ [] ∧ ("abc" : String).length ≤ 64 ∧
      startsOk ("abc" : String).data = true ∧
      ("abc" : String).data.all allowedChar = true ∧
      sanitize_tool_name "abc" = some "abc") ∧
    (sanitize_tool_name "9!" = some "A9_" ∧ sanitize_tool_name "A9_" = some "A9_") :=
  ⟨⟨by decide, by decide, by decide, by decide,
     sanitize_identity_and_idempotent.1 "abc" (by decide) (by decide) (by decide) (by decide)⟩,
   ⟨rfl, sanitize_identity_and_idempotent.2 "9!" "A9_" rfl⟩⟩

/-! ### Claim C6 -/

/-- Claim C6, counterexample: in `gcp_server`, an `Optional[str]` annotation
(`typing.Union[str, None]`) passes `is_simple_type`, so `create_wrapper` keeps
it unchanged — the normalized source type is a union, not one of the seven
portable types `{string, integer, float, boolean, array, object, any}`. -/
theorem gcp_union_not_portable :
    gcpNormalizeAnn (some (.punion [.pstr, .pnone])) = .punion [.pstr, .pnone] ∧
    isPortableSeven (PyType.punion [.pstr, .pnone]) = false :=
  ⟨rfl, rfl⟩

/-- Claim C6, amended: normalization is total (never raises) in both servers.
In `google_api_server` every type tag — known, unknown or missing — maps into
`{string, integer, float, boolean, array, object}` (unknown and missing tags
default to string). In `gcp_server` every annotation maps to a type the code
classifies as simple (missing annotations and non-simple annotations are
coerced to `dict`/object), but simple unions and `NoneType` are kept as-is
rather than reduced to one of the seven portable types. -/
theorem normalization_total :
    (∀ tag : Option String, isPortableSeven (googleNormalizeParam tag) = true) ∧
    (∀ ann : Option PyType, is_simple_type (gcpNormalizeAnn ann) = true) := by
  constructor
  · intro tag
    unfold googleNormalizeParam googleTypeMap
    split_ifs <;> rfl
  · intro ann
    cases ann with
    | none => rfl
    | some t =>
      by_cases h : is_simple_type t = true
      · show is_simple_type (if is_simple_type t then t else .pdict) = true
        rw [if_pos h]; exact h
      · show is_simple_type (if is_simple_type t then t else .pdict) = true
        rw [if_neg h]; rfl

/-! ### Claim C5 -/

theorem collectPagerItems_eq_take {α : Type} (ser : α → String) :
    ∀ (xs : List α) (k : Nat), collectPagerItems ser k xs = (xs.take (20 - k)).map ser := by
  intro xs
  induction xs with
  | nil => intro k; simp [collectPagerItems]
  | cons x rest ih =>
    intro k
    by_cases h : 20 ≤ k
    · have h0 : 20 - k = 0 := by omega
      simp [collectPagerItems, if_pos h, h0]
    · have hk : 20 - k = (20 - (k + 1)) + 1 := by omega
      simp only [collectPagerItems, if_neg h, ih (k + 1), hk, List.take_succ_cons,
        List.map_cons]

/-- Claim C5, confirmed: the pager branch of `gcp_server`'s wrapper
materializes exactly the first `min(len, 20)` items — the truncated list is
`items[:20]` mapped through the item serializer, so a 1000-item pager yields
exactly 20 array elements and only the first 20 items of the source are ever
consumed. -/
theorem pager_truncation :
    (∀ (α : Type) (xs : List α) (ser : α → String),
       collectPagerItems ser 0 xs = (xs.take 20).map ser ∧
       (collectPagerItems ser 0 xs).length = min xs.length 20 ∧
       (∀ jsonDumps strConv,
          gcpNormalizeResult ser jsonDumps strConv (.pager xs) =
            "[" ++ String.intercalate ", " (collectPagerItems ser 0 xs) ++ "]")) ∧
    (collectPagerItems (fun n : Nat => toString n) 0 (List.range 1000)).length = 20 := by
  constructor
  · intro α xs ser
    refine ⟨?_, ?_, fun _ _ => rfl⟩
    · simpa using collectPagerItems_eq_take ser xs 0
    · rw [collectPagerItems_eq_take]
      simp [List.length_take, Nat.min_comm]
  · rw [collectPagerItems_eq_take]
    simp

/-! ### Association-list lemmas (Python dict semantics) -/

theorem alookup_aset_self (k : String) (v : Value) (m : List (String × Value)) :
    alookup k (aset k v m) = some v := by
  induction m with
  | nil => simp [aset, alookup]
  | cons kv rest ih =>
    obtain ⟨k', v'⟩ := kv
    by_cases h : k' = k
    · subst h; simp [aset, alookup]
    · simp [aset, alookup, h, ih]

theorem alookup_aset_ne {k' k : String} (h : k' ≠ k) (v : Value)
    (m : List (String × Value)) : alookup k (aset k' v m) = alookup k m := by
  induction m with
  | nil => simp [aset, alookup, h]
  | cons kv rest ih =>
    obtain ⟨k'', v''⟩ := kv
    by_cases h2 : k'' = k'
    · subst h2; simp [aset, alookup, h]
    · by_cases h3 : k'' = k
      · subst h3; simp [aset, alookup, h2, h]
      · simp [aset, alookup, h2, h3, ih]

theorem alookup_aupdate_not_mem {k : String} {inner : List (String × Value)}
    (h : ∀ p ∈ inner, p.1 ≠ k) (m : List (String × Value)) :
    alookup k (aupdate m inner) = alookup k m := by
  induction inner generalizing m with
  | nil => rfl
  | cons kv rest ih =>
    have hstep : aupdate m (kv :: rest) = aupdate (aset kv.1 kv.2 m) rest := rfl
    rw [hstep, ih (fun p hp => h p (List.mem_cons_of_mem kv hp))]
    exact alookup_aset_ne (h kv (List.mem_cons_self kv rest)) kv.2 m

theorem alookup_aupdate_mem {k : String} {v : Value} {inner : List (String × Value)}
    (hnd : (inner.map Prod.fst).Nodup) (hl : alookup k inner = some v)
    (m : List (String × Value)) : alookup k (aupdate m inner) = some v := by
  induction inner generalizing m with
  | nil => cases hl
  | cons kv rest ih =>
    obtain ⟨k', v'⟩ := kv
    have hstep : aupdate m ((k', v') :: rest) = aupdate (aset k' v' m) rest := rfl
    rw [hstep]
    rw [List.map_cons] at hnd
    have hnd' := List.nodup_cons.mp hnd
    by_cases h : k' = k
    · have hv : v' = v := Option.some.inj (by simpa [alookup, h] using hl)
      subst hv
      have hrest : ∀ p ∈ rest, p.1 ≠ k := by
        intro p hp hpk
        exact hnd'.1 (List.mem_map.mpr ⟨p, hp, hpk.trans h.symm⟩)
      rw [alookup_aupdate_not_mem hrest, h]
      exact alookup_aset_self k v' m
    · have hl' : alookup k rest = some v := by simpa [alookup, h] using hl
      exact ih hnd'.2 hl' (aset k' v' m)

/-! ### Claim C7 -/

/-- Claim C7, confirmed: when the caller nests arguments under the reserved
`'kwargs'` name, the fitbit wrappers pop it and merge the nested dict into the
argument set exactly once (`kwargs.update(inner_kwargs)`); a `'kwargs'` key
nested a second level down survives as an ordinary entry — it is still present
(with its raw dict value) after unwrapping, not flattened again. -/
theorem kwargs_unwrapped_once (kwargs inner : List (String × Value))
    (h : alookup "kwargs" kwargs = some (.vdict inner)) :
    unwrapKwargs kwargs = aupdate (aerase "kwargs" kwargs) inner ∧
    (∀ v2, (inner.map Prod.fst).Nodup → alookup "kwargs" inner = some v2 →
      alookup "kwargs" (unwrapKwargs kwargs) = some v2) := by
  have h1 : unwrapKwargs kwargs = aupdate (aerase "kwargs" kwargs) inner := by
    unfold unwrapKwargs
    rw [h]
  refine ⟨h1, fun v2 hnd hv2 => ?_⟩
  rw [h1]
  exact alookup_aupdate_mem hnd hv2 _

/-- Witness for C7 at a concrete doubly-nested argument map. -/
theorem kwargs_unwrapped_once_witness :
    alookup "kwargs"
        [("kwargs", Value.vdict [("date", .vstr "2024-01-01"), ("kwargs", .vdict [])])] =
      some (.vdict [("date", .vstr "2024-01-01"), ("kwargs", .vdict [])]) ∧
    (([("date", Value.vstr "2024-01-01"), ("kwargs", Value.vdict [])].map
        Prod.fst).Nodup ∧
     alookup "kwargs" [("date", Value.vstr "2024-01-01"), ("kwargs", .vdict [])] =
       some (.vdict []) ∧
     alookup "kwargs"
        (unwrapKwargs
          [("kwargs", Value.vdict [("date", .vstr "2024-01-01"), ("kwargs", .vdict [])])]) =
       some (.vdict [])) :=
  ⟨rfl, by decide, rfl,
   (kwargs_unwrapped_once
      [("kwargs", Value.vdict [("date", .vstr "2024-01-01"), ("kwargs", .vdict [])])]
      [("date", Value.vstr "2024-01-01"), ("kwargs", Value.vdict [])] rfl).2
     (.vdict []) (by decide) rfl⟩

/-! ### Claim C10 -/

theorem alookup_remapfold_untouched {mapping : List (String × String)} {k : String}
    {l : List (String × Value)} (h : ∀ p ∈ l, remapKey mapping p.1 ≠ k) :
    ∀ acc, alookup k (l.foldl (fun acc kv => aset (remapKey mapping kv.1) kv.2 acc) acc) =
      alookup k acc := by
  induction l with
  | nil => intro acc; rfl
  | cons kv rest ih =>
    intro acc
    rw [List.foldl_cons, ih (fun p hp => h p (List.mem_cons_of_mem kv hp))]
    exact alookup_aset_ne (h kv (List.mem_cons_self kv rest)) kv.2 acc

theorem remapfold_preserves {mapping : List (String × String)} {k : String} {v : Value} :
    ∀ (l acc : List (String × Value)),
      (l.map Prod.fst).Nodup →
      alookup k l = some v →
      remapKey mapping k = k →
      (∀ p ∈ l, p.1 ≠ k → remapKey mapping p.1 ≠ k) →
      alookup k (l.foldl (fun acc kv => aset (remapKey mapping kv.1) kv.2 acc) acc) =
        some v := by
  intro l
  induction l with
  | nil => intro acc _ hin; cases hin
  | cons kv rest ih =>
    intro acc hnd hin hk hnocol
    obtain ⟨k1, v1⟩ := kv
    rw [List.map_cons] at hnd
    have hnd' := List.nodup_cons.mp hnd
    rw [List.foldl_cons]
    by_cases h : k1 = k
    · have hv : v1 = v := Option.some.inj (by simpa [alookup, h] using hin)
      subst hv
      have hmem : ∀ p ∈ rest, remapKey mapping p.1 ≠ k := by
        intro p hp
        have hne : p.1 ≠ k :=
          fun hpk => hnd'.1 (List.mem_map.mpr ⟨p, hp, hpk.trans h.symm⟩)
        exact hnocol p (List.mem_cons_of_mem _ hp) hne
      rw [alookup_remapfold_untouched hmem]
      show alookup k (aset (remapKey mapping k1) v1 acc) = some v1
      rw [h, hk]
      exact alookup_aset_self k v1 acc
    · have hin' : alookup k rest = some v := by simpa [alookup, h] using hin
      exact ih (aset (remapKey mapping k1) v1 acc) hnd'.2 hin' hk
        (fun p hp hne => hnocol p (List.mem_cons_of_mem _ hp) hne)

/-- Claim C10, counterexample: the claim quantifies over every unknown kwarg,
but with `param_mapping = {"p_q": "p.q"}` and caller kwargs
`{"p.q": "1", "p_q": "2"}` the wrapper's loop first assigns
`api_kwargs["p.q"] = "1"` through the fallback arm and then overwrites it with
`"2"` when `"p_q"` is remapped to `"p.q"` — the unknown kwarg `"p.q"` (neither
`'body'` nor a mapping key) does NOT reach the provider with its value
unchanged; it is clobbered by the later assignment. -/
theorem fallback_kwarg_clobbered :
    alookup "p.q" [("p.q", Value.vstr "1"), ("p_q", Value.vstr "2")] = some (.vstr "1") ∧
    ("p.q" : String) ≠ "body" ∧
    slookup "p.q" [("p_q", "p.q")] = none ∧
    alookup "p.q" (remapKwargs [("p_q", "p.q")]
        [("p.q", Value.vstr "1"), ("p_q", Value.vstr "2")]) = some (.vstr "2") ∧
    alookup "p.q" (remapKwargs [("p_q", "p.q")]
        [("p.q", Value.vstr "1"), ("p_q", Value.vstr "2")]) ≠ some (.vstr "1") := by
  refine ⟨rfl, by decide, rfl, rfl, ?_⟩
  intro h
  have h' : some (Value.vstr "2") = some (Value.vstr "1") := h
  have hv := Option.some.inj h'
  injection hv with hs
  exact absurd hs (by decide)

/-- Claim C10, amended: a keyword argument whose exposed name is neither
`'body'` nor a key of the sanitized-to-original parameter mapping is assigned
into the provider argument map under its own name by the wrapper's `else`
arm (never rejected), and it reaches the provider operation with its value
unchanged provided no other keyword argument remaps onto that same name —
otherwise the later `api_kwargs[...] = v` assignment of the loop overwrites
it. (The caller's kwargs have unique keys, as Python dicts guarantee.) -/
theorem fallback_kwargs_forwarded (mapping : List (String × String))
    (kwargs : List (String × Value)) (k : String) (v : Value)
    (hnd : (kwargs.map Prod.fst).Nodup)
    (hin : alookup k kwargs = some v)
    (hbody : k ≠ "body")
    (hmap : slookup k mapping = none)
    (hnocol : ∀ p ∈ kwargs, p.1 ≠ k → remapKey mapping p.1 ≠ k) :
    alookup k (remapKwargs mapping kwargs) = some v := by
  have hk : remapKey mapping k = k := by
    unfold remapKey
    rw [if_neg hbody, hmap]
  exact remapfold_preserves kwargs [] hnd hin hk hnocol

/-- Witness for C10: the unknown kwarg `"x"` is forwarded unchanged past a
mapping that only knows `"p_q"`. -/
theorem fallback_kwargs_forwarded_witness :
    (([("x", Value.vstr "1"), ("p_q", Value.vstr "2")].map Prod.fst).Nodup ∧
     alookup "x" [("x", Value.vstr "1"), ("p_q", Value.vstr "2")] = some (.vstr "1") ∧
     ("x" : String) ≠ "body" ∧
     slookup "x" [("p_q", "p.q")] = none ∧
     (∀ p ∈ [("x", Value.vstr "1"), ("p_q", Value.vstr "2")],
        p.1 ≠ "x" → remapKey [("p_q", "p.q")] p.1 ≠ "x")) ∧
    alookup "x" (remapKwargs [("p_q", "p.q")]
        [("x", Value.vstr "1"), ("p_q", Value.vstr "2")]) = some (.vstr "1") := by
  have hball : ∀ p ∈ [("x", Value.vstr "1"), ("p_q", Value.vstr "2")],
      p.1 ≠ "x" → remapKey [("p_q", "p.q")] p.1 ≠ "x" := by
    intro p hp
    rcases hp with _ | ⟨_, hp⟩
    · intro hfalse; exact absurd rfl hfalse
    · rcases hp with _ | ⟨_, hp⟩
      · intro _; decide
      · cases hp
  exact ⟨⟨by decide, rfl, by decide, rfl, hball⟩,
    fallback_kwargs_forwarded _ _ _ _ (by decide) rfl (by decide) rfl hball⟩

/-! ### Claim C4 -/

theorem countKey_zero_not_mem {key : String} {reg : List (String × Nat)}
    (h : countKey key reg = 0) : ∀ p ∈ reg, p.1 ≠ key := by
  intro p hp hpk
  have hmem : p ∈ reg.filter (fun kv => kv.1 = key) :=
    List.mem_filter.mpr ⟨hp, by simp [hpk]⟩
  have hnil : reg.filter (fun kv => kv.1 = key) = [] := List.length_eq_zero.mp h
  rw [hnil] at hmem
  cases hmem

theorem nlookup_append_absent {key : String} {l1 l2 : List (String × Nat)}
    (h : ∀ p ∈ l1, p.1 ≠ key) : nlookup key (l1 ++ l2) = nlookup key l2 := by
  induction l1 with
  | nil => rfl
  | cons p rest ih =>
    obtain ⟨k', v'⟩ := p
    rw [List.cons_append, nlookup, if_neg (h (k', v') (List.mem_cons_self _ _))]
    exact ih (fun q hq => h q (List.mem_cons_of_mem _ hq))

/-- Claim C4, confirmed (with the FastMCP registry modelled from the spec):
registering two tool names that sanitize to the same catalog key leaves
exactly one entry for that key in the registry; the entry still holds the
first tool (the later registration does not overwrite it), the collision is
reported by appending a log line, and nothing is raised to the caller —
`registerTool` is a total function into `RegistryState` by its very type,
mirroring the `try/except ... logger.debug` around `mcp.add_tool`. -/
theorem registry_collision (st : RegistryState) (n1 n2 : String) (t1 t2 : Nat)
    (key : String)
    (h1 : sanitize_tool_name n1 = some key)
    (h2 : sanitize_tool_name n2 = some key)
    (h0 : countKey key st.registry = 0) :
    countKey key (registerTool (registerTool st n1 t1) n2 t2).registry = 1 ∧
    nlookup key (registerTool (registerTool st n1 t1) n2 t2).registry = some t1 ∧
    (registerTool (registerTool st n1 t1) n2 t2).registry =
      (registerTool st n1 t1).registry ∧
    (registerTool (registerTool st n1 t1) n2 t2).logs =
      (registerTool st n1 t1).logs ++
        ["Failed to register tool " ++ n2 ++ ": " ++ ("Tool already exists: " ++ key)] := by
  have habs := countKey_zero_not_mem h0
  have hany0 : st.registry.any (fun kv => kv.1 = key) = false := by
    rw [List.any_eq_false]
    intro p hp
    simp [habs p hp]
  have heq1 : addTool st.registry key t1 = .ok (st.registry ++ [(key, t1)]) := by
    unfold addTool
    rw [if_neg (by simp [hany0])]
  have hst1 : registerTool st n1 t1 =
      { st with registry := st.registry ++ [(key, t1)],
                registeredTools := st.registeredTools ++ [n1] } := by
    simp only [registerTool, h1, heq1]
  have hany1 : (st.registry ++ [(key, t1)]).any (fun kv => kv.1 = key) = true := by
    rw [List.any_eq_true]
    exact ⟨(key, t1), by simp, by simp⟩
  have heq2 : addTool (st.registry ++ [(key, t1)]) key t2 =
      .error ("Tool already exists: " ++ key) := by
    unfold addTool
    rw [if_pos hany1]
  have hst2 : registerTool (registerTool st n1 t1) n2 t2 =
      { registry := st.registry ++ [(key, t1)],
        registeredTools := st.registeredTools ++ [n1],
        logs := st.logs ++
          ["Failed to register tool " ++ n2 ++ ": " ++ ("Tool already exists: " ++ key)] } := by
    rw [hst1]
    simp only [registerTool, h2, heq2]
  have hfilter : st.registry.filter (fun kv => kv.1 = key) = [] :=
    List.length_eq_zero.mp h0
  refine ⟨?_, ?_, ?_, ?_⟩
  · rw [hst2]
    unfold countKey
    rw [List.filter_append, hfilter]
    simp
  · rw [hst2]
    show nlookup key (st.registry ++ [(key, t1)]) = some t1
    rw [nlookup_append_absent habs, nlookup, if_pos rfl]
  · rw [hst2, hst1]
  · rw [hst2, hst1]

/-- Witness for C4: `"a@b"` and `"a#b"` both sanitize to `"a_b"`; registering
both into an empty registry keeps one entry holding the first tool. -/
theorem registry_collision_witness :
    (sanitize_tool_name "a@b" = some "a_b" ∧ sanitize_tool_name "a#b" = some "a_b" ∧
     countKey "a_b" (RegistryState.mk [] [] []).registry = 0) ∧
    (countKey "a_b" (registerTool (registerTool ⟨[], [], []⟩ "a@b" 1) "a#b" 2).registry = 1 ∧
     nlookup "a_b" (registerTool (registerTool ⟨[], [], []⟩ "a@b" 1) "a#b" 2).registry =
       some 1) := by
  have h := registry_collision ⟨[], [], []⟩ "a@b" "a#b" 1 2 "a_b" rfl rfl rfl
  exact ⟨⟨rfl, rfl, rfl⟩, ⟨h.1, h.2.1⟩⟩

/-! ### Claim C8 -/

/-- Claim C8, counterexample: `get_service`'s cache is a bare dict with an
unsynchronized check-then-act, and `build(...)` blocks on network I/O between
the check and the insert. In the interleaving where both threads pass the
empty-cache check before either constructs, two first-time callers perform
TWO constructions and end up holding two distinct handles — not one shared
construction as the claim requires. -/
theorem cache_race_two_constructions :
    (runSched [true, false, true, false] initTwoThreads).st.constructions = 2 ∧
    (runSched [true, false, true, false] initTwoThreads).t1 = .finished 0 ∧
    (runSched [true, false, true, false] initTwoThreads).t2 = .finished 1 :=
  ⟨rfl, rfl, rfl⟩

theorem seqCalls_cached (n h c : Nat) :
    seqCalls n ⟨some h, c⟩ = (List.replicate n h, ⟨some h, c⟩) := by
  induction n with
  | zero => rfl
  | succ m ih => rw [seqCalls, get_service]; simp [ih, List.replicate_succ]

/-- Claim C8, amended: the cache provides no single-flight guarantee — there
is an interleaving of two concurrent first-time callers that performs two
constructions (each caller getting its own handle) — but memoization does hold
sequentially: any number of back-to-back calls starting from the empty cache
construct exactly once, and every call returns the one memoized handle. -/
theorem cache_memoization :
    (∀ n : Nat, seqCalls (n + 1) ⟨none, 0⟩ = (List.replicate (n + 1) 0, ⟨some 0, 1⟩)) ∧
    (∃ sched : List Bool, (runSched sched initTwoThreads).st.constructions = 2) := by
  constructor
  · intro n
    rw [seqCalls, get_service]
    simp [seqCalls_cached, List.replicate_succ]
  · exact ⟨[true, false, true, false], rfl⟩

/-! ### Claim C1 -/

/-- Claim C1, counterexample: the secops adapter
(`secops_server.register_tools.create_wrapper.wrapper`) wraps nothing in
`try/except`; when client resolution fails (here: the `ValueError` raised by
`get_client` when `PROJECT_ID`/`CUSTOMER_ID` are unset) the exception
propagates raw to the caller instead of being converted to a string. -/
theorem secops_wrapper_propagates :
    secopsWrapper
      (.error "PROJECT_ID and CUSTOMER_ID environment variables must be set.")
      (fun _ _ => .ok Value.vnull) [] =
    .error "PROJECT_ID and CUSTOMER_ID environment variables must be set." := rfl

/-- Claim C1, amended: the `google_api_server` and `gcp_server` adapters (and
`soar_server`'s, which has the same shape as the latter) do catch every
exception raised by client resolution, remapping, invocation or serialization
and return a plain string: either the successful serialized result, or
`"Error executing <name>: <message>"` — where `<name>` is the sanitized tool
name in `google_api_server` but only the provider method name in
`gcp_server`/`soar_server`. The `secops_server` and dynamically discovered
`fitbit_server` adapters are exceptions: they propagate errors raw. -/
theorem guarded_adapters_return_strings :
    (∀ (toolName : String) (factory : Except String Unit)
       (callOp : List (String × Value) → Except String Value)
       (serialize : Value → Except String String)
       (mapping : List (String × String)) (kwargs : List (String × Value)),
       (∃ s, googleWrapperBody factory callOp serialize mapping kwargs = .ok s ∧
          googleWrapper toolName factory callOp serialize mapping kwargs = s) ∨
       (∃ e, googleWrapperBody factory callOp serialize mapping kwargs = .error e ∧
          googleWrapper toolName factory callOp serialize mapping kwargs =
            "Error executing " ++ toolName ++ ": " ++ e)) ∧
    (∀ (methodName : String) (clientFactory : Except String Unit)
       (callOp : List (String × Value) → Except String (GcpResult Nat))
       (ser : Nat → String) (jsonDumps strConv : Value → String)
       (kwargs : List (String × Value)),
       (∃ s, gcpWrapperBody clientFactory callOp ser jsonDumps strConv kwargs = .ok s ∧
          gcpWrapper methodName clientFactory callOp ser jsonDumps strConv kwargs = s) ∨
       (∃ e, gcpWrapperBody clientFactory callOp ser jsonDumps strConv kwargs = .error e ∧
          gcpWrapper methodName clientFactory callOp ser jsonDumps strConv kwargs =
            "Error executing " ++ methodName ++ ": " ++ e)) := by
  constructor
  · intro toolName factory callOp serialize mapping kwargs
    cases h : googleWrapperBody factory callOp serialize mapping kwargs with
    | ok s => exact Or.inl ⟨s, rfl, by unfold googleWrapper; rw [h]⟩
    | error e => exact Or.inr ⟨e, rfl, by unfold googleWrapper; rw [h]⟩
  · intro methodName clientFactory callOp ser jsonDumps strConv kwargs
    cases h : gcpWrapperBody clientFactory callOp ser jsonDumps strConv kwargs with
    | ok s => exact Or.inl ⟨s, rfl, by unfold gcpWrapper; rw [h]⟩
    | error e => exact Or.inr ⟨e, rfl, by unfold gcpWrapper; rw [h]⟩

end DuckPunch
